import Mathlib

/-!
Shallow embedding of trajectory-rs (src/lib.rs): a time-indexed trajectory
store with interpolated lookup, built from Choreo trajectory records.

Modelling conventions:
* `f64` values that the claims treat as real quantities are modelled as `ℚ`
  (exact rational arithmetic).  The one place where NaN matters — sample
  timestamps fed to `ordered_float::NotNan::new` — uses the type `F64`,
  which is a rational together with a distinguished NaN value.
* The `BTreeMap<NotNan<f64>, Pose>` is modelled as a strictly key-sorted
  association list `List (ℚ × Pose)`; `insertSorted` is the map insertion
  (later duplicate keys overwrite).
* Rust panics (`unwrap` on `None`/`Err`, out-of-bounds indexing) are
  modelled by `Option`: a result of `none` means the Rust code panics.
* `Path::get` is written against the original nightly `btree_cursors`
  cursor API that `#![feature(btree_cursors)]` provided when this code was
  written: `upper_bound(Bound::Included(&k))` returns a cursor at the
  greatest key `≤ k`, or at the "ghost" non-element when no such key
  exists, and `peek_next()` on the ghost cursor returns the FIRST element
  of the map (wrap-around), while `key()`/`value()` on the ghost return
  `None`.  This wrap-around is what decides the before-start behaviour.
* The `uom` unit wrappers (`Length`, `Angle`, …) store SI base units
  (meters, radians, …) with conversion factor 1 for every unit used by
  `From<Sample> for Pose`, so they are transparent in the model.
* `std::f64::consts::PI` is embedded as `pi64`, the exact rational value
  of the IEEE-754 double nearest π.
-/

namespace TrajectoryRs

/-- An `f64` as far as NaN-handling is concerned: either NaN or a finite
rational value. -/
inductive F64 where
  | nan : F64
  | fin : ℚ → F64
deriving DecidableEq, Repr

/-- Model of `ordered_float::NotNan::<f64>::new`: succeeds with the raw
value exactly when the input is not NaN (`none` models `Err(FloatIsNan)`,
whose `unwrap` panics). -/
def NotNan.new : F64 → Option ℚ
  | .nan => none
  | .fin q => some q

/-- The `Pose` struct: six physical quantities (uom wrappers over `f64`,
stored in SI base units, modelled as `ℚ`), in source field order. -/
structure Pose where
  x : ℚ
  y : ℚ
  heading : ℚ
  angular_velocity : ℚ
  velocity_x : ℚ
  velocity_y : ℚ
deriving DecidableEq, Repr

/-- The `Sample` struct from the Choreo JSON schema, in source field order
(`t`, `x`, `y`, `heading`, `vx`, `vy`, `omega`).  Only the timestamp `t`
is ever NaN-checked by the code, so it carries the NaN-aware type. -/
structure Sample where
  t : F64
  x : ℚ
  y : ℚ
  heading : ℚ
  velocity_x : ℚ
  velocity_y : ℚ
  angular_velocity : ℚ
deriving DecidableEq, Repr

/-- The `SnapshotWaypoint` struct (source field order). -/
structure SnapshotWaypoint where
  x : ℚ
  y : ℚ
  heading : ℚ
  intervals : ℕ
  split : Bool
  fix_translation : Bool
  fix_heading : Bool
  override_intervals : Bool
deriving DecidableEq, Repr

/-- The `Constraint` struct (empty in the source: `// TODO: implement`). -/
structure Constraint where
deriving DecidableEq, Repr

/-- The `Params` struct (empty in the source: `// TODO: implement`). -/
structure Params where
deriving DecidableEq, Repr

/-- The `Event` struct (empty in the source: `// TODO: implement`). -/
structure Event where
deriving DecidableEq, Repr

/-- The `Snapshot` struct. -/
structure Snapshot where
  waypoints : List SnapshotWaypoint
  constraints : List Constraint
  target_dt : ℚ
deriving DecidableEq, Repr

/-- The `TrajectoryData` struct: dense samples plus waypoint timestamps. -/
structure TrajectoryData where
  samples : List Sample
  waypoints : List ℚ
deriving DecidableEq, Repr

/-- The top-level `ChoreoTrajectory` record, as produced by the external
JSON parser (deserialization itself is out of scope). -/
structure ChoreoTrajectory where
  name : String
  version : ℕ
  snapshot : Snapshot
  params : Params
  trajectory : TrajectoryData
  events : List Event

/-- The `Path` struct: the `BTreeMap<NotNan<f64>, Pose>` modelled as a
strictly key-sorted association list, plus the waypoint timestamp list. -/
structure Path where
  samples : List (ℚ × Pose)
  waypoints : List ℚ
deriving DecidableEq, Repr

/-- The sortedness invariant `BTreeMap` maintains on its keys. -/
def sortedKeys (l : List (ℚ × Pose)) : Prop :=
  l.Pairwise (fun a b => a.1 < b.1)

instance (l : List (ℚ × Pose)) : Decidable (sortedKeys l) :=
  List.instDecidablePairwise l

/-- `BTreeMap::insert` on the sorted-association-list model: keeps keys
strictly increasing; an equal key overwrites the stored value. -/
def insertSorted (k : ℚ) (v : Pose) : List (ℚ × Pose) → List (ℚ × Pose)
  | [] => [(k, v)]
  | (k', v') :: rest =>
    if k < k' then (k, v) :: (k', v') :: rest
    else if k = k' then (k, v) :: rest
    else (k', v') :: insertSorted k v rest

/-- The exact rational value of the IEEE-754 `f64` constant
`std::f64::consts::PI`. -/
def pi64 : ℚ := 884279719003555 / 281474976710656

/-- The free function `lerp` specialised to the model's scalars:
`a + (b - a) * l`. -/
def lerp (a b l : ℚ) : ℚ := a + (b - a) * l

/-- `Pose::lerp`: the field-wise linear blend of two poses (body of the
source method; each field goes through the free `lerp`). -/
def lerpPose (p other : Pose) (l : ℚ) : Pose where
  x := lerp p.x other.x l
  y := lerp p.y other.y l
  heading := lerp p.heading other.heading l
  angular_velocity := lerp p.angular_velocity other.angular_velocity l
  velocity_x := lerp p.velocity_x other.velocity_x l
  velocity_y := lerp p.velocity_y other.velocity_y l

/-- `Pose::lerp` under its source name (alias for `lerpPose`; the alias
exists only because inside `Pose.lerp` the bare name `lerp` would denote
the method itself rather than the free function). -/
def Pose.lerp : Pose → Pose → ℚ → Pose := lerpPose

/-- `Pose::mirror`: reflect `x`/`y` about the reference point, add the
`f64` value of π to the heading, negate angular velocity, pass linear
velocity through (the source comments: "X and Y are half of the field
length and width", "velocity might be wrong"). -/
def Pose.mirror (p : Pose) (x y : ℚ) : Pose where
  x := x - p.x + x
  y := y - p.y + y
  heading := p.heading + pi64
  angular_velocity := -p.angular_velocity
  velocity_x := p.velocity_x
  velocity_y := p.velocity_y

/-- `From<Sample> for Pose`: every conversion uses the storage unit
(meter, radian, meter/second, radian/second), i.e. factor 1. -/
def Sample.toPose (s : Sample) : Pose where
  x := s.x
  y := s.y
  heading := s.heading
  angular_velocity := s.angular_velocity
  velocity_x := s.velocity_x
  velocity_y := s.velocity_y

/-- One iteration of the insertion loop of `Path::from_trajectory_data`:
`samples.insert(NotNan::new(sample.t).unwrap(), sample.into())`.
`none` models the `unwrap` panic on a NaN timestamp. -/
def insertSample (m : List (ℚ × Pose)) (s : Sample) : Option (List (ℚ × Pose)) :=
  (NotNan.new s.t).map (fun k => insertSorted k s.toPose m)

/-- `Path::from_trajectory_data` (a plain constructor in the source — its
Rust signature has no error channel; `none` models a panic, which can
only come from a NaN timestamp). -/
def Path.from_trajectory_data (data : TrajectoryData) : Option Path :=
  (data.samples.foldlM insertSample []).map
    (fun samples => { samples := samples, waypoints := data.waypoints })

/-- The waypoint-collection loop of `Path::from_trajectory`: enumerate the
snapshot waypoints, keep the `split`-flagged ones, and index
`trajectory.waypoints` by the snapshot position.  `none` models the
out-of-bounds indexing panic of `choreo.trajectory.waypoints[i]`. -/
def collectWaypoints (trajWps : List ℚ) :
    List (ℕ × SnapshotWaypoint) → Option (List ℚ)
  | [] => some []
  | (i, _) :: rest => do
    let t ← trajWps.get? i
    let ts ← collectWaypoints trajWps rest
    some (t :: ts)

/-- `Path::from_trajectory`, after the external JSON parse has succeeded
(the parse — the only declared error of the Rust function — is out of
scope, so here `none` models a panic). -/
def Path.from_trajectory (choreo : ChoreoTrajectory) : Option Path :=
  (collectWaypoints choreo.trajectory.waypoints
      (choreo.snapshot.waypoints.enum.filter (fun iw => iw.2.split))).bind
    (fun valid_waypoints =>
      Path.from_trajectory_data
        { samples := choreo.trajectory.samples, waypoints := valid_waypoints })

/-- The `peek_next()` of the cursor obtained from
`upper_bound(Bound::Included(&elapsed))`: when the cursor sits on an
element (the greatest key `≤ elapsed`), its successor is the least key
`> elapsed`; when it sits on the ghost non-element, `peek_next` wraps
around to the first element of the map. -/
def peekNext (samples : List (ℚ × Pose)) (elapsed : ℚ)
    (below : Option (ℚ × Pose)) : Option (ℚ × Pose) :=
  match below with
  | some _ => (samples.filter (fun e => decide (elapsed < e.1))).head?
  | none => samples.head?

/-- `Path::get`.  `below` is the cursor from
`upper_bound(Bound::Included(&elapsed))` (the greatest key `≤ elapsed`,
`none` = ghost).  When `peek_next()` yields a successor, the code reads
`below.key().unwrap()` / `below.value().unwrap()` and interpolates —
panicking (`none`) when the cursor is the ghost; otherwise it returns
the floor pose (`below.value().unwrap()`, panicking on an empty map). -/
def Path.get (p : Path) (elapsed : ℚ) : Option Pose :=
  let below := (p.samples.filter (fun e => decide (e.1 ≤ elapsed))).getLast?
  match peekNext p.samples elapsed below, below with
  | some a, some b => some (b.2.lerp a.2 ((elapsed - b.1) / (a.1 - b.1)))
  | some _, none => none
  | none, b => b.map Prod.snd

/-- `Path::length`: the greatest key
(`self.samples.last_key_value().unwrap()`; `none` models the panic on an
empty map). -/
def Path.length (p : Path) : Option ℚ :=
  p.samples.getLast?.map Prod.fst

/-! ### Supporting lemmas about the ordered-map model -/

theorem lerpPose_zero (a b : Pose) : lerpPose a b 0 = a := by
  simp [lerpPose, lerp]

theorem filter_le_eq_concat (t tb : ℚ) (Pb : Pose) (l₁ tail : List (ℚ × Pose))
    (h₁ : ∀ e ∈ l₁, e.1 ≤ t) (hb : tb ≤ t) (htail : ∀ e ∈ tail, t < e.1) :
    (l₁ ++ (tb, Pb) :: tail).filter (fun e => decide (e.1 ≤ t)) = l₁ ++ [(tb, Pb)] := by
  rw [List.filter_append,
      List.filter_cons_of_pos (by simpa using hb),
      List.filter_eq_self.mpr (fun a ha => by simpa using h₁ a ha),
      List.filter_eq_nil_iff.mpr (fun a ha => by simpa using not_le.mpr (htail a ha))]

theorem head_filter_gt (t ta : ℚ) (Pa : Pose) (front l₂ : List (ℚ × Pose))
    (hfront : ∀ e ∈ front, e.1 ≤ t) (hta : t < ta) :
    ((front ++ (ta, Pa) :: l₂).filter (fun e => decide (t < e.1))).head? = some (ta, Pa) := by
  rw [List.filter_append,
      List.filter_eq_nil_iff.mpr (fun a ha => by simpa using not_lt.mpr (hfront a ha)),
      List.filter_cons_of_pos (by simpa using hta)]
  rfl

theorem filter_gt_eq_nil (t : ℚ) (l : List (ℚ × Pose)) (h : ∀ e ∈ l, e.1 ≤ t) :
    l.filter (fun e => decide (t < e.1)) = [] :=
  List.filter_eq_nil_iff.mpr (fun a ha => by simpa using not_lt.mpr (h a ha))

/-- Characterisation of `Path::get` when the queried time has both a floor
key and a successor key: the cursor finds the floor, `peek_next` finds the
successor, and the result is the lerp between their poses. -/
theorem get_of_floor_and_next (p : Path) (l₁ l₂ : List (ℚ × Pose)) (tb ta t : ℚ)
    (Pb Pa : Pose) (hs : sortedKeys p.samples)
    (hd : p.samples = l₁ ++ (tb, Pb) :: (ta, Pa) :: l₂)
    (h1 : tb ≤ t) (h2 : t < ta) :
    p.get t = some (Pb.lerp Pa ((t - tb) / (ta - tb))) := by
  rw [hd] at hs
  obtain ⟨hl₁, hmid, hcross⟩ := List.pairwise_append.mp hs
  obtain ⟨hb_lt, hmid'⟩ := List.pairwise_cons.mp hmid
  obtain ⟨ha_lt, -⟩ := List.pairwise_cons.mp hmid'
  have hfront : ∀ e ∈ l₁, e.1 ≤ t := fun e he =>
    le_of_lt (lt_of_lt_of_le (hcross e he (tb, Pb) (List.mem_cons_self _ _)) h1)
  have htail : ∀ e ∈ (ta, Pa) :: l₂, t < e.1 := by
    intro e he
    rcases List.mem_cons.mp he with rfl | he'
    · exact h2
    · exact h2.trans (ha_lt e he')
  have hbelow : (p.samples.filter (fun e => decide (e.1 ≤ t))).getLast? = some (tb, Pb) := by
    rw [hd, filter_le_eq_concat t tb Pb l₁ _ hfront h1 htail]
    exact List.getLast?_concat l₁
  have hfront' : ∀ e ∈ l₁ ++ [(tb, Pb)], e.1 ≤ t := by
    intro e he
    rcases List.mem_append.mp he with he' | he'
    · exact hfront e he'
    · rw [List.mem_singleton.mp he']
      exact h1
  have habove : (p.samples.filter (fun e => decide (t < e.1))).head? = some (ta, Pa) := by
    have hre : p.samples = (l₁ ++ [(tb, Pb)]) ++ (ta, Pa) :: l₂ := by simp [hd]
    rw [hre]
    exact head_filter_gt t ta Pa _ l₂ hfront' h2
  simp [Path.get, peekNext, hbelow, habove]

/-- Characterisation of `Path::get` when the floor key is the greatest
key: `peek_next` is `None` and the floor pose is returned unchanged. -/
theorem get_of_floor_last (p : Path) (l₁ : List (ℚ × Pose)) (tn t : ℚ) (Pn : Pose)
    (hs : sortedKeys p.samples) (hd : p.samples = l₁ ++ [(tn, Pn)]) (h : tn ≤ t) :
    p.get t = some Pn := by
  rw [hd] at hs
  obtain ⟨hl₁, -, hcross⟩ := List.pairwise_append.mp hs
  have hall : ∀ e ∈ p.samples, e.1 ≤ t := by
    intro e he
    rw [hd] at he
    rcases List.mem_append.mp he with he' | he'
    · exact le_of_lt (lt_of_lt_of_le
        (hcross e he' (tn, Pn) (List.mem_singleton_self _)) h)
    · rw [List.mem_singleton.mp he']
      exact h
  have hbelow : (p.samples.filter (fun e => decide (e.1 ≤ t))).getLast? = some (tn, Pn) := by
    rw [hd, List.filter_eq_self.mpr
        (fun a ha => by simpa using hall a (by rw [hd]; exact ha))]
    exact List.getLast?_concat l₁
  have habove : (p.samples.filter (fun e => decide (t < e.1))).head? = none := by
    rw [filter_gt_eq_nil t p.samples hall]
    rfl
  simp [Path.get, peekNext, hbelow, habove]

theorem mem_insertSorted (k : ℚ) (v : Pose) :
    ∀ (m : List (ℚ × Pose)), ∀ e ∈ insertSorted k v m, e = (k, v) ∨ e ∈ m := by
  intro m
  induction m with
  | nil =>
    intro e he
    simp only [insertSorted, List.mem_singleton] at he
    exact Or.inl he
  | cons a m ih =>
    obtain ⟨k', v'⟩ := a
    intro e he
    simp only [insertSorted] at he
    split at he
    · rcases List.mem_cons.mp he with rfl | he'
      · exact Or.inl rfl
      · exact Or.inr he'
    · split at he
      · rcases List.mem_cons.mp he with rfl | he'
        · exact Or.inl rfl
        · exact Or.inr (List.mem_cons_of_mem _ he')
      · rcases List.mem_cons.mp he with rfl | he'
        · exact Or.inr (List.mem_cons_self _ _)
        · rcases ih e he' with rfl | he''
          · exact Or.inl rfl
          · exact Or.inr (List.mem_cons_of_mem _ he'')

/-- Inserting into a strictly key-sorted association list keeps it
strictly key-sorted (the `BTreeMap` invariant). -/
theorem insertSorted_sorted (k : ℚ) (v : Pose) :
    ∀ (m : List (ℚ × Pose)), sortedKeys m → sortedKeys (insertSorted k v m) := by
  intro m
  induction m with
  | nil =>
    intro _
    simp [insertSorted, sortedKeys]
  | cons a m ih =>
    obtain ⟨k', v'⟩ := a
    intro hm
    obtain ⟨ha, hm'⟩ := List.pairwise_cons.mp hm
    simp only [insertSorted]
    split
    · refine List.pairwise_cons.mpr ⟨?_, hm⟩
      intro e he
      rcases List.mem_cons.mp he with rfl | he'
      · assumption
      · exact lt_trans ‹k < k'› (ha e he')
    · split
      · refine List.pairwise_cons.mpr ⟨?_, hm'⟩
        intro e he
        exact ‹k = k'› ▸ ha e he
      · refine List.pairwise_cons.mpr ⟨?_, ih hm'⟩
        intro e he
        rcases mem_insertSorted k v m e he with rfl | he'
        · exact lt_of_le_of_ne (not_lt.mp ‹¬ k < k'›) (Ne.symm ‹¬ k = k'›)
        · exact ha e he'

theorem foldlM_insertSample_sorted :
    ∀ (l : List Sample) (acc : List (ℚ × Pose)), sortedKeys acc →
      ∀ m, l.foldlM insertSample acc = some m → sortedKeys m := by
  intro l
  induction l with
  | nil =>
    intro acc hacc m h
    have h' : some acc = some m := h
    cases h'
    exact hacc
  | cons a l ih =>
    intro acc hacc m h
    rw [List.foldlM_cons] at h
    cases hia : insertSample acc a with
    | none =>
      rw [hia] at h
      cases h
    | some acc' =>
      rw [hia] at h
      have hsort : sortedKeys acc' := by
        cases hnn : NotNan.new a.t with
        | none =>
          rw [insertSample, hnn] at hia
          cases hia
        | some k =>
          rw [insertSample, hnn] at hia
          have heq : some (insertSorted k a.toPose acc) = some acc' := hia
          cases heq
          exact insertSorted_sorted k a.toPose acc hacc
      exact ih acc' hsort m (by simpa using h)

/-- Every Path produced by ingestion satisfies the `sortedKeys` invariant
assumed by the `Path::get` theorems: its association list has strictly
increasing keys, as the `BTreeMap` guarantees. -/
theorem from_trajectory_data_sorted (d : TrajectoryData) (p : Path)
    (h : Path.from_trajectory_data d = some p) : sortedKeys p.samples := by
  unfold Path.from_trajectory_data at h
  cases hf : d.samples.foldlM insertSample [] with
  | none =>
    rw [hf] at h
    cases h
  | some m =>
    rw [hf] at h
    have h' : some (Path.mk m d.waypoints) = some p := h
    cases h'
    exact foldlM_insertSample_sorted d.samples [] List.Pairwise.nil m hf

/-! ### Claim theorems -/

/-- Claim C1 (corrected): querying strictly before the first timestamp
does NOT clamp to the first sample — the ghost cursor's `peek_next()`
wraps to the first element, so the code reaches
`below.key().unwrap()` with `below` the ghost and panics (`none`).
Queries at or after the first timestamp always succeed. -/
theorem get_panics_before_first (p : Path) (t0 t : ℚ) (P0 : Pose)
    (rest : List (ℚ × Pose))
    (hs : sortedKeys p.samples) (hd : p.samples = (t0, P0) :: rest) :
    (t < t0 → p.get t = none) ∧ (t0 ≤ t → ∃ q, p.get t = some q) := by
  rw [hd] at hs
  have hrest : ∀ e ∈ rest, t0 < e.1 := fun e he =>
    (List.pairwise_cons.mp hs).1 e he
  constructor
  · intro hlt
    have hnil : p.samples.filter (fun e => decide (e.1 ≤ t)) = [] := by
      rw [hd]
      refine List.filter_eq_nil_iff.mpr ?_
      intro a ha
      rcases List.mem_cons.mp ha with rfl | ha'
      · simpa using not_le.mpr hlt
      · simpa using not_le.mpr (hlt.trans (hrest a ha'))
    have hhead : p.samples.head? = some (t0, P0) := by
      rw [hd]
      rfl
    simp [Path.get, peekNext, hnil, hhead]
  · intro hle
    have hmem : (t0, P0) ∈ p.samples.filter (fun e => decide (e.1 ≤ t)) := by
      rw [hd]
      exact List.mem_filter.mpr ⟨List.mem_cons_self _ _, by simpa using hle⟩
    have hne : p.samples.filter (fun e => decide (e.1 ≤ t)) ≠ [] :=
      List.ne_nil_of_mem hmem
    cases hb : (p.samples.filter (fun e => decide (e.1 ≤ t))).getLast? with
    | none => exact absurd (List.getLast?_eq_none_iff.mp hb) hne
    | some b =>
      cases ha : (p.samples.filter (fun e => decide (t < e.1))).head? with
      | none => exact ⟨b.2, by simp [Path.get, peekNext, hb, ha]⟩
      | some a =>
        exact ⟨b.2.lerp a.2 ((t - b.1) / (a.1 - b.1)),
          by simp [Path.get, peekNext, hb, ha]⟩

/-- Claim C1 counterexample: a Path built from samples at t = 0 and t = 1;
the query at elapsed time −1 panics (`none`) instead of returning the
first sample's pose. -/
theorem get_before_first_counterexample :
    Path.from_trajectory_data
        ⟨[⟨F64.fin 0, 0, 0, 0, 0, 0, 0⟩, ⟨F64.fin 1, 2, 0, 0, 0, 0, 0⟩], []⟩
      = some ⟨[(0, ⟨0, 0, 0, 0, 0, 0⟩), (1, ⟨2, 0, 0, 0, 0, 0⟩)], []⟩ ∧
    Path.get ⟨[(0, ⟨0, 0, 0, 0, 0, 0⟩), (1, ⟨2, 0, 0, 0, 0, 0⟩)], []⟩ (-1) = none := by
  decide

/-- Claim C1 witness: both conjuncts of `get_panics_before_first`
exercised on a concrete sorted Path with keys 1 and 3. -/
theorem get_panics_before_first_witness :
    Path.get ⟨[(1, Pose.mk 0 0 0 0 0 0), (3, Pose.mk 2 0 0 0 0 0)], []⟩ 0 = none ∧
    ∃ q, Path.get ⟨[(1, Pose.mk 0 0 0 0 0 0), (3, Pose.mk 2 0 0 0 0 0)], []⟩ 2 = some q :=
  ⟨(get_panics_before_first _ 1 0 (Pose.mk 0 0 0 0 0 0) [(3, Pose.mk 2 0 0 0 0 0)]
      (by decide) rfl).1 (by norm_num),
   (get_panics_before_first _ 1 2 (Pose.mk 0 0 0 0 0 0) [(3, Pose.mk 2 0 0 0 0 0)]
      (by decide) rfl).2 (by norm_num)⟩

/-- Claim C2 (confirmed): between two adjacent sample timestamps
`tb ≤ t < ta` the query returns the field-wise affine blend
`floor + (next − floor) · progress`, `progress = (t − tb)/(ta − tb)`,
applied independently to each of the six quantities, the heading as a raw
linear value. -/
theorem get_interpolates (p : Path) (l₁ l₂ : List (ℚ × Pose)) (tb ta t : ℚ)
    (Pb Pa : Pose) (hs : sortedKeys p.samples)
    (hd : p.samples = l₁ ++ (tb, Pb) :: (ta, Pa) :: l₂)
    (h1 : tb ≤ t) (h2 : t < ta) :
    p.get t = some
      { x := Pb.x + (Pa.x - Pb.x) * ((t - tb) / (ta - tb)),
        y := Pb.y + (Pa.y - Pb.y) * ((t - tb) / (ta - tb)),
        heading := Pb.heading + (Pa.heading - Pb.heading) * ((t - tb) / (ta - tb)),
        angular_velocity := Pb.angular_velocity
          + (Pa.angular_velocity - Pb.angular_velocity) * ((t - tb) / (ta - tb)),
        velocity_x := Pb.velocity_x
          + (Pa.velocity_x - Pb.velocity_x) * ((t - tb) / (ta - tb)),
        velocity_y := Pb.velocity_y
          + (Pa.velocity_y - Pb.velocity_y) * ((t - tb) / (ta - tb)) } := by
  rw [get_of_floor_and_next p l₁ l₂ tb ta t Pb Pa hs hd h1 h2]
  rfl

/-- Claim C2 witness: the spec's concrete scenario — samples at t = 0
(x = 0) and t = 1 (x = 2); query(1/2) yields x = 1. -/
theorem get_interpolates_witness :
    Path.get ⟨[(0, Pose.mk 0 0 0 0 0 0), (1, Pose.mk 2 0 0 0 0 0)], []⟩ (1/2)
      = some (Pose.mk 1 0 0 0 0 0) := by
  have h := get_interpolates ⟨[(0, Pose.mk 0 0 0 0 0 0), (1, Pose.mk 2 0 0 0 0 0)], []⟩
      [] [] 0 1 (1/2) (Pose.mk 0 0 0 0 0 0) (Pose.mk 2 0 0 0 0 0)
      (by decide) rfl (by norm_num) (by norm_num)
  rw [h]
  simp only [Option.some.injEq, Pose.mk.injEq]
  norm_num

/-- Claim C3 (confirmed): at an exact knot timestamp the query returns
that knot's pose exactly — `progress = 0` when a successor exists, and
the hold-last branch fires at the final knot. -/
theorem get_at_knot (p : Path) (l₁ l₂ : List (ℚ × Pose)) (ti : ℚ) (Pi : Pose)
    (hs : sortedKeys p.samples) (hd : p.samples = l₁ ++ (ti, Pi) :: l₂) :
    p.get ti = some Pi := by
  cases l₂ with
  | nil => exact get_of_floor_last p l₁ ti ti Pi hs hd le_rfl
  | cons a l₂' =>
    obtain ⟨ta, Pa⟩ := a
    have hta : ti < ta := by
      rw [hd] at hs
      exact (List.pairwise_cons.mp (List.pairwise_append.mp hs).2.1).1
        (ta, Pa) (List.mem_cons_self _ _)
    have h := get_of_floor_and_next p l₁ l₂' ti ta ti Pi Pa hs hd le_rfl hta
    rw [h, sub_self, zero_div,
        show Pi.lerp Pa 0 = lerpPose Pi Pa 0 from rfl, lerpPose_zero]

/-- Claim C3 witness: at knot t = 1 of the two-sample Path the second
sample's pose is returned exactly. -/
theorem get_at_knot_witness :
    Path.get ⟨[(0, Pose.mk 0 0 0 0 0 0), (1, Pose.mk 2 0 0 0 0 0)], []⟩ 1
      = some (Pose.mk 2 0 0 0 0 0) :=
  get_at_knot _ [(0, Pose.mk 0 0 0 0 0 0)] [] 1 (Pose.mk 2 0 0 0 0 0) (by decide) rfl

/-- Claim C4 (confirmed): at or beyond the last sample's timestamp the
query returns the last sample's pose unchanged (hold-last-value). -/
theorem get_clamps_to_end (p : Path) (l₁ : List (ℚ × Pose)) (tn t : ℚ) (Pn : Pose)
    (hs : sortedKeys p.samples) (hd : p.samples = l₁ ++ [(tn, Pn)]) (ht : tn ≤ t) :
    p.get t = some Pn :=
  get_of_floor_last p l₁ tn t Pn hs hd ht

/-- Claim C4 witness: the spec's concrete scenario — query(2) on the
0‑to‑1 Path yields the t = 1 pose (x = 2) unchanged. -/
theorem get_clamps_to_end_witness :
    Path.get ⟨[(0, Pose.mk 0 0 0 0 0 0), (1, Pose.mk 2 0 0 0 0 0)], []⟩ 2
      = some (Pose.mk 2 0 0 0 0 0) :=
  get_clamps_to_end _ [(0, Pose.mk 0 0 0 0 0 0)] 1 2 (Pose.mk 2 0 0 0 0 0)
    (by decide) rfl (by norm_num)

/-- Claim C5 counterexample: `Path::from_trajectory_data` happily builds
a Path from zero samples — there is no `EmptyTrajectoryError` anywhere in
the code, and the resulting Path has an empty timestamp mapping. -/
theorem from_trajectory_data_empty_counterexample :
    Path.from_trajectory_data ⟨[], []⟩ = some ⟨[], []⟩ := by
  decide

/-- Claim C5 (corrected): constructing from zero samples is NOT an error:
it yields a Path with an empty mapping, on which `length()` and `get()`
then panic (`unwrap` on `None`; panics modelled by `none`). -/
theorem from_trajectory_data_empty_builds (ws : List ℚ) (t : ℚ) :
    Path.from_trajectory_data ⟨[], ws⟩ = some ⟨[], ws⟩ ∧
    Path.length ⟨[], ws⟩ = none ∧
    Path.get ⟨[], ws⟩ t = none :=
  ⟨rfl, rfl, rfl⟩

/-- Any sample list containing a NaN timestamp makes the insertion fold
panic (`NotNan::new(sample.t).unwrap()`). -/
theorem foldlM_insertSample_nan :
    ∀ (l : List Sample) (acc : List (ℚ × Pose)),
      (∃ s ∈ l, s.t = F64.nan) → l.foldlM insertSample acc = none := by
  intro l
  induction l with
  | nil =>
    rintro acc ⟨s, hs, -⟩
    cases hs
  | cons a l ih =>
    rintro acc ⟨s, hs, hnan⟩
    rw [List.foldlM_cons]
    rcases List.mem_cons.mp hs with rfl | hmem
    · simp [insertSample, NotNan.new, hnan]
    · cases hia : insertSample acc a with
      | none => simp [hia]
      | some acc' =>
        simp only [hia, Option.bind_eq_bind, Option.some_bind]
        exact ih acc' ⟨s, hmem, hnan⟩

/-- Claim C6 counterexample: a record whose second sample has a NaN
timestamp makes ingestion panic (`none`) — it neither produces a Path
nor surfaces a typed `MalformedSample` result (no such error type exists
in the code). -/
theorem nan_timestamp_counterexample :
    Path.from_trajectory_data
      ⟨[⟨F64.fin 0, 0, 0, 0, 0, 0, 0⟩, ⟨F64.nan, 0, 0, 0, 0, 0, 0⟩], []⟩ = none := by
  decide

/-- Claim C6 (corrected): a NaN sample timestamp makes
`from_trajectory_data` panic via `NotNan::new(...).unwrap()` rather than
fail with a typed `MalformedSample` error (which does not exist). -/
theorem from_trajectory_data_nan_panics (data : TrajectoryData)
    (h : ∃ s ∈ data.samples, s.t = F64.nan) :
    Path.from_trajectory_data data = none := by
  unfold Path.from_trajectory_data
  rw [foldlM_insertSample_nan data.samples [] h]
  rfl

/-- Claim C6 witness: `from_trajectory_data_nan_panics` applied to a
single-NaN-sample record. -/
theorem from_trajectory_data_nan_panics_witness :
    Path.from_trajectory_data ⟨[⟨F64.nan, 1, 2, 3, 4, 5, 6⟩], [7]⟩ = none :=
  from_trajectory_data_nan_panics ⟨[⟨F64.nan, 1, 2, 3, 4, 5, 6⟩], [7]⟩
    ⟨⟨F64.nan, 1, 2, 3, 4, 5, 6⟩, List.mem_singleton_self _, rfl⟩

/-- Claim C7 (confirmed): `mirror` reflects x about rx (x′ = 2·rx − x)
and y about ry, adds a half-turn (the `f64` value of π radians) to the
heading, negates the angular velocity, and passes both linear velocity
components through unchanged; it is a pure function returning a new
Pose. -/
theorem mirror_formula (p : Pose) (rx ry : ℚ) :
    p.mirror rx ry =
      { x := 2 * rx - p.x,
        y := 2 * ry - p.y,
        heading := p.heading + pi64,
        angular_velocity := -p.angular_velocity,
        velocity_x := p.velocity_x,
        velocity_y := p.velocity_y } := by
  simp only [Pose.mirror]
  congr 1 <;> ring

/-- Claim C8 (confirmed): mirroring twice about the same reference point
restores x, y, the angular velocity and both velocities exactly, and
returns the original heading shifted by exactly one full turn — twice
the code's π constant. -/
theorem mirror_mirror (p : Pose) (rx ry : ℚ) :
    (p.mirror rx ry).mirror rx ry = { p with heading := p.heading + 2 * pi64 } := by
  simp only [Pose.mirror]
  congr 1 <;> ring

/-- Every timestamp collected by the waypoint loop is an element of the
input record's `trajectory.waypoints` list (it is read from that list by
index). -/
theorem collectWaypoints_mem :
    ∀ (pairs : List (ℕ × SnapshotWaypoint)) (ws vs : List ℚ),
      collectWaypoints ws pairs = some vs → ∀ t ∈ vs, t ∈ ws := by
  intro pairs
  induction pairs with
  | nil =>
    intro ws vs h t ht
    simp only [collectWaypoints, Option.some.injEq] at h
    rw [← h] at ht
    cases ht
  | cons a rest ih =>
    intro ws vs h t ht
    obtain ⟨i, w⟩ := a
    simp only [collectWaypoints, Option.bind_eq_bind, Option.bind_eq_some,
      Option.some.injEq] at h
    obtain ⟨x, hx, ts, hts, hcons⟩ := h
    rw [← hcons] at ht
    rcases List.mem_cons.mp ht with rfl | ht'
    · exact List.get?_mem hx
    · exact ih ws ts hts t ht'

/-- `from_trajectory_data` copies the waypoint list of its input into the
Path verbatim. -/
theorem from_trajectory_data_waypoints (d : TrajectoryData) (p : Path)
    (h : Path.from_trajectory_data d = some p) : p.waypoints = d.waypoints := by
  unfold Path.from_trajectory_data at h
  cases hf : d.samples.foldlM insertSample [] with
  | none =>
    rw [hf] at h
    cases h
  | some m =>
    rw [hf] at h
    have h' : some (Path.mk m d.waypoints) = some p := h
    cases h'
    rfl

/-- Claim C9 counterexample: a record whose `trajectory.waypoints` entry
(5) matches no sample timestamp still ingests into a Path whose
`waypoints()` list contains 5, which is not a key of the mapping —
dangling waypoint references are not prevented. -/
theorem waypoints_dangling_counterexample :
    Path.from_trajectory
        { name := "x", version := 1,
          snapshot := { waypoints := [⟨0, 0, 0, 4, true, false, false, false⟩],
                        constraints := [], target_dt := 1/20 },
          params := ⟨⟩,
          trajectory := { samples := [⟨F64.fin 0, 0, 0, 0, 0, 0, 0⟩], waypoints := [5] },
          events := [] }
      = some ⟨[(0, ⟨0, 0, 0, 0, 0, 0⟩)], [5]⟩ ∧
    (5 : ℚ) ∈ (Path.mk [(0, ⟨0, 0, 0, 0, 0, 0⟩)] [5]).waypoints ∧
    ¬ (5 : ℚ) ∈ (Path.mk [(0, ⟨0, 0, 0, 0, 0, 0⟩)] [5]).samples.map Prod.fst := by
  decide

/-- Claim C9 (corrected): waypoint timestamps are copied verbatim from
the input record's `trajectory.waypoints` list — each `waypoints()` entry
is an element of that input list, but nothing checks that it is a key of
the timestamp mapping. -/
theorem waypoints_taken_verbatim (choreo : ChoreoTrajectory) (p : Path)
    (h : Path.from_trajectory choreo = some p) :
    ∀ t ∈ p.waypoints, t ∈ choreo.trajectory.waypoints := by
  unfold Path.from_trajectory at h
  cases hc : collectWaypoints choreo.trajectory.waypoints
      (choreo.snapshot.waypoints.enum.filter (fun iw => iw.2.split)) with
  | none =>
    rw [hc] at h
    cases h
  | some vs =>
    rw [hc, Option.some_bind] at h
    have hw := from_trajectory_data_waypoints _ _ h
    intro t ht
    rw [hw] at ht
    exact collectWaypoints_mem _ _ _ hc t ht

/-- Claim C9 witness: `waypoints_taken_verbatim` applied to a concrete
record whose single waypoint timestamp 0 is also a sample timestamp. -/
theorem waypoints_taken_verbatim_witness :
    (0 : ℚ) ∈ (ChoreoTrajectory.mk "good" 1
        ⟨[⟨0, 0, 0, 4, true, false, false, false⟩], [], 1/20⟩ ⟨⟩
        ⟨[⟨F64.fin 0, 0, 0, 0, 0, 0, 0⟩], [0]⟩ []).trajectory.waypoints :=
  waypoints_taken_verbatim
    (ChoreoTrajectory.mk "good" 1
      ⟨[⟨0, 0, 0, 4, true, false, false, false⟩], [], 1/20⟩ ⟨⟩
      ⟨[⟨F64.fin 0, 0, 0, 0, 0, 0, 0⟩], [0]⟩ [])
    ⟨[(0, ⟨0, 0, 0, 0, 0, 0⟩)], [0]⟩ (by decide) 0 (by decide)

/-- Claim C10 (confirmed): a well-formed record with a split-flagged
snapshot waypoint at index 0 but an empty `trajectory.waypoints` list
makes `Path::from_trajectory` panic with an out-of-bounds index
(`choreo.trajectory.waypoints[i]`), modelled by `none`, instead of
returning its declared error result. -/
theorem from_trajectory_split_oob_panics :
    ((ChoreoTrajectory.mk "bad" 1
        ⟨[⟨0, 0, 0, 4, true, false, false, false⟩], [], 1/20⟩ ⟨⟩
        ⟨[⟨F64.fin 0, 0, 0, 0, 0, 0, 0⟩], []⟩ []).snapshot.waypoints.filter
          (fun wp => wp.split)).length = 1 ∧
    (ChoreoTrajectory.mk "bad" 1
        ⟨[⟨0, 0, 0, 4, true, false, false, false⟩], [], 1/20⟩ ⟨⟩
        ⟨[⟨F64.fin 0, 0, 0, 0, 0, 0, 0⟩], []⟩ []).trajectory.waypoints.length = 0 ∧
    Path.from_trajectory
      (ChoreoTrajectory.mk "bad" 1
        ⟨[⟨0, 0, 0, 4, true, false, false, false⟩], [], 1/20⟩ ⟨⟩
        ⟨[⟨F64.fin 0, 0, 0, 0, 0, 0, 0⟩], []⟩ []) = none := by
  decide

end TrajectoryRs
